import Mathlib

/-!
Shallow embedding of `make-catalog.py`: the version-enumeration and
channel-expansion engine (`ImageVersion`, `BundleVersion.load` / `_do_load` /
`enumerate`, `OlmChannelParser._load_entries`) together with theorems about
the properties of that engine.

Modelling conventions:
* the external renderer (`opm render` behind `run_opm`) is an injected
  function `Render : String → Option (List YamlDoc)`; `none` models a
  `subprocess.CalledProcessError`, `some docs` the already-YAML-parsed
  documents of the renderer's stdout;
* the process-wide cache `BundleVersion._load_cache` is explicit state
  (`RunState`) threaded through the computation, together with the list of
  render invocations and the warnings that were logged;
* the enumeration `while` loop takes a fuel parameter, because with `to`
  absent its termination depends on the renderer eventually failing; a
  `none` result means the fuel ran out before the loop finished;
* machine strings are Lean `String`s manipulated through their character
  lists, semantic-version comparison (the `semver` library) is equality /
  lexicographic order of the `(major, minor, patch)` triple.
-/

namespace MkCat

/-- Characters of the placeholder token `@@VERSION@@` of image-name patterns. -/
def placeholder : List Char := "@@VERSION@@".data

/-- Replaces every occurrence of `needle` in the haystack by `repl`, scanning
left to right without overlap, exactly like `re.sub` on a literal pattern.
The fuel makes the recursion structural; any fuel at least the length of the
haystack gives the full replacement. -/
def replaceAllAux (needle repl : List Char) : Nat → List Char → List Char
  | 0, l => l
  | _ + 1, [] => []
  | fuel + 1, c :: rest =>
    if needle.isPrefixOf (c :: rest) then
      repl ++ replaceAllAux needle repl fuel ((c :: rest).drop needle.length)
    else
      c :: replaceAllAux needle repl fuel rest

/-- Embedding of `re.sub('@@VERSION@@', str(current_version), pattern)` from
`BundleVersion.enumerate`. -/
def substVersion (pat s : String) : String :=
  String.mk (replaceAllAux placeholder s.data (pat.data.length + 1) pat.data)

/-- Digit characters of a natural number, most significant first (fuel-based
so that the kernel can evaluate it). -/
def natDigits : Nat → Nat → List Char
  | 0, _ => []
  | _ + 1, 0 => []
  | fuel + 1, n => natDigits fuel (n / 10) ++ [Char.ofNat (48 + n % 10)]

/-- Decimal rendering of a natural number. -/
def natToStr (n : Nat) : String :=
  if n = 0 then "0" else String.mk (natDigits (n + 1) n)

/-- Parses a list of decimal digit characters; `none` when empty or when a
non-digit occurs. -/
def digitsToNatAux : List Char → Nat → Option Nat
  | [], acc => some acc
  | c :: rest, acc =>
    if c.isDigit then digitsToNatAux rest (acc * 10 + (c.toNat - 48)) else none

/-- Parses a nonempty all-digit character list as a natural number. -/
def digitsToNat : List Char → Option Nat
  | [] => none
  | l => digitsToNatAux l 0

/-- Splits a character list at every dot, keeping empty components. -/
def splitDots : List Char → List (List Char)
  | [] => [[]]
  | c :: rest =>
    if c = '.' then [] :: splitDots rest
    else
      match splitDots rest with
      | [] => [[c]]
      | p :: ps => (c :: p) :: ps

/-- The comparable, incrementable version value of the source's `ImageVersion`
class: a literal prefix (`pfx`, the source's `prefix` attribute, matched by the
regex group `(v?)`, so `"v"` or `""`) plus the `semver.Version` triple. -/
structure ImageVersion where
  pfx : String
  major : Nat
  minor : Nat
  patch : Nat
  deriving DecidableEq, Repr

/-- Rendering of the bare `semver.Version`, i.e. `str(self.ver)`. -/
def verStr (v : ImageVersion) : String :=
  natToStr v.major ++ "." ++ natToStr v.minor ++ "." ++ natToStr v.patch

/-- The source's `ImageVersion.__repr__`: `f"{self.prefix}{self.ver}"`. -/
def reprV (v : ImageVersion) : String :=
  v.pfx ++ verStr v

/-- Embedding of `ImageVersion.parse`: the regex `(v?)([0-9.]*)$` followed by
`semver.parse_version_info`, which requires exactly three nonempty numeric
dot-separated components. `none` models the `ValueError` raised on failure. -/
def parseImageVersion (s : String) : Option ImageVersion :=
  match s.data with
  | 'v' :: r =>
    match (splitDots r).map digitsToNat with
    | [some a, some b, some c] => some ⟨"v", a, b, c⟩
    | _ => none
  | r =>
    match (splitDots r).map digitsToNat with
    | [some a, some b, some c] => some ⟨"", a, b, c⟩
    | _ => none

/-- The source's `ImageVersion.inc_patchlevel`: a new value with the same
prefix, major and minor, and `patch + 1`. -/
def inc_patchlevel (v : ImageVersion) : ImageVersion :=
  ⟨v.pfx, v.major, v.minor, v.patch + 1⟩

/-- The source's `__lt__`, delegated to `semver`: strict lexicographic order
on `(major, minor, patch)`; the prefix does not participate. -/
def vlt (a b : ImageVersion) : Bool :=
  decide (a.major < b.major ∨ (a.major = b.major ∧
    (a.minor < b.minor ∨ (a.minor = b.minor ∧ a.patch < b.patch))))

/-- The source's `__le__`, delegated to `semver`: lexicographic order on
`(major, minor, patch)`; the prefix does not participate. -/
def vle (a b : ImageVersion) : Bool :=
  decide (a.major < b.major ∨ (a.major = b.major ∧
    (a.minor < b.minor ∨ (a.minor = b.minor ∧ a.patch ≤ b.patch))))

/-- One `value` record of a document's `properties` list; `version` is
`prop["value"]["version"]`. -/
structure YamlProperty where
  type : String
  version : String
  deriving DecidableEq, Repr

/-- One YAML document returned by the renderer, at the interface of
`yaml.safe_load`: the fields the script reads (`schema`, `name`,
`properties`). -/
structure YamlDoc where
  schema : String := ""
  name : String := ""
  properties : List YamlProperty := []
  deriving DecidableEq, Repr

/-- The source's `BundleVersion` value: the version it was loaded under and
the renderer's documents. -/
structure BundleVersion where
  version : ImageVersion
  yamls : List YamlDoc
  deriving DecidableEq, Repr

/-- The injected external renderer: `opm render <image> --output=yaml`
behind `run_opm`; `none` models `subprocess.CalledProcessError`. -/
def Render : Type := String → Option (List YamlDoc)

/-- The process-wide mutable state of the script: the memoizing
`BundleVersion._load_cache` (an association list, newest first), the list of
render invocations actually performed, and the warnings logged so far. -/
structure RunState where
  cache : List (String × Option BundleVersion) := []
  renderCalls : List String := []
  warnings : List String := []
  deriving DecidableEq, Repr

/-- The empty state at the start of one program invocation. -/
def emptyRun : RunState := {}

/-- Lookup in the memoizing cache: `docker_image_name in cls._load_cache`,
returning the stored outcome when present. -/
def cacheLookup : List (String × Option BundleVersion) → String → Option (Option BundleVersion)
  | [], _ => none
  | (k, v) :: rest, n => if k = n then some v else cacheLookup rest n

/-- The first `olm.package` property over all documents and their properties,
in order — the property on which `BundleVersion._do_load` returns. -/
def findPackageVersion (docs : List YamlDoc) : Option String :=
  docs.findSome? fun d =>
    d.properties.findSome? fun p =>
      if p.type = "olm.package" then some p.version else none

/-- The warning logged by `_do_load` on a version mismatch (the stray `f`
before the image name is in the source's format string). -/
def mismatchWarning (docker_image_name actual : String) (expected : ImageVersion) : String :=
  "Skipping malformed image f" ++ docker_image_name ++ " (contains version " ++
    actual ++ ", expected " ++ verStr expected ++ ")"

/-- The warning logged by `_do_load` when no `olm.package` property exists. -/
def noPackageWarning (docker_image_name : String) : String :=
  "No `olm.package` property found in " ++ docker_image_name ++ "!"

/-- Embedding of `BundleVersion._do_load`: invoke the renderer; on a renderer
error return `None`; otherwise decide on the first `olm.package` property:
a declared version different from the expected one is a warning plus `None`,
an equal one is a loaded `BundleVersion` carrying the expected version and all
documents; no property at all is a warning plus `None`.  The second component
is the list of warnings logged. -/
def do_load (render : Render) (docker_image_name : String) (expected : ImageVersion) :
    Option BundleVersion × List String :=
  match render docker_image_name with
  | none => (none, [])
  | some yamls =>
    match findPackageVersion yamls with
    | none => (none, [noPackageWarning docker_image_name])
    | some actual =>
      if actual = verStr expected then
        (some ⟨expected, yamls⟩, [])
      else
        (none, [mismatchWarning docker_image_name actual expected])

/-- Embedding of `BundleVersion.load`: consult `_load_cache`; on a miss run
`_do_load` once, store its outcome (a failure outcome included) and return it;
on a hit return the stored outcome without touching the renderer. -/
def load (render : Render) (run : RunState) (docker_image_name : String)
    (expected : ImageVersion) : Option BundleVersion × RunState :=
  match cacheLookup run.cache docker_image_name with
  | some o => (o, run)
  | none =>
    let r := do_load render docker_image_name expected
    (r.1, ⟨(docker_image_name, r.1) :: run.cache,
           run.renderCalls ++ [docker_image_name],
           run.warnings ++ r.2⟩)

/-- What one iteration of the enumeration loop did at its cursor. -/
inductive StepKind
  | skipped
  | failure
  | success
  deriving DecidableEq, Repr

/-- Ghost record of one iteration of the enumeration loop: the cursor value,
what happened there, and whether a probe was served from the cache. -/
structure Step where
  version : ImageVersion
  kind : StepKind
  cached : Bool
  deriving DecidableEq, Repr

/-- The mutable state of `BundleVersion.enumerate`'s `while` loop:
`current_version`, `failures` (which may go negative), `successes`, and the
shared process state. -/
structure EnumState where
  current : ImageVersion
  failures : Int
  successes : Nat
  run : RunState
  deriving DecidableEq, Repr

/-- The `while` condition
`failures >= 0 and (last_version is None or current_version <= last_version)`. -/
def enumCond (last : Option ImageVersion) (st : EnumState) : Bool :=
  decide (0 ≤ st.failures) &&
    (match last with
     | none => true
     | some l => vle st.current l)

/-- One iteration of the loop body of `BundleVersion.enumerate`: a cursor in
the skip set advances without probing; otherwise the image name is built, the
bundle is loaded through the cache, a `None` outcome decrements the failure
budget, and a loaded bundle is counted and yielded.  Returns the ghost step,
the (zero or one) bundles yielded, and the next state. -/
def enumStep (render : Render) (pat : String) (to_skip : List String)
    (st : EnumState) : Step × List BundleVersion × EnumState :=
  if to_skip.contains (reprV st.current) then
    (⟨st.current, .skipped, false⟩, [],
     { st with current := inc_patchlevel st.current })
  else
    let docker_image_name := substVersion pat (reprV st.current)
    let hit := (cacheLookup st.run.cache docker_image_name).isSome
    match load render st.run docker_image_name st.current with
    | (none, run') =>
      (⟨st.current, .failure, hit⟩, [],
       ⟨inc_patchlevel st.current, st.failures - 1, st.successes, run'⟩)
    | (some bv, run') =>
      (⟨st.current, .success, hit⟩, [bv],
       ⟨inc_patchlevel st.current, st.failures, st.successes + 1, run'⟩)

/-- The `while` loop of `BundleVersion.enumerate`, fuelled: while the loop
condition holds, run one step and accumulate the ghost trace and the yielded
bundles; `none` means the fuel ran out before the condition failed. -/
def enumLoop (render : Render) (pat : String) (last : Option ImageVersion)
    (to_skip : List String) : Nat → EnumState → Option (List Step × List BundleVersion × EnumState)
  | 0, st => if enumCond last st then none else some ([], [], st)
  | fuel + 1, st =>
    if enumCond last st then
      match enumStep render pat to_skip st with
      | (s, ys, st') =>
        match enumLoop render pat last to_skip fuel st' with
        | none => none
        | some (tr, ys', fin) => some (s :: tr, ys ++ ys', fin)
    else
      some ([], [], st)

/-- The errors `BundleVersion.enumerate` can raise: the `ValueError` of
`ImageVersion.parse` and the final `ValueError` naming the pattern and the
starting version when no image at all was found. -/
inductive EnumError
  | malformedVersion (text : String)
  | noVersionFound (pat : String) (fromVersion : ImageVersion)
  deriving DecidableEq, Repr

/-- One `_versions:` directive entry as read from the configuration YAML:
`pattern`, `from`, optional `failures` (default 1), optional inclusive `to`,
and the `skip` list. -/
structure VersionsInfo where
  pat : String
  fromVer : String
  failures : Option Int := none
  toVer : Option String := none
  skip : List String := []
  deriving DecidableEq, Repr

/-- Parsing of the optional `to` bound: `some none` when absent, `some (some l)`
when present and well formed, `none` when present and malformed. -/
def parsedLast (vi : VersionsInfo) : Option (Option ImageVersion) :=
  match vi.toVer with
  | none => some none
  | some t => (parseImageVersion t).map some

/-- The loop of `BundleVersion.enumerate` run from a parsed starting version,
followed by the `if not successes: raise ValueError(...)` epilogue. -/
def enumerateFrom (render : Render) (fuel : Nat) (vi : VersionsInfo) (run : RunState)
    (first : ImageVersion) (last : Option ImageVersion) :
    Option (Except EnumError (List Step × List BundleVersion × EnumState)) :=
  (enumLoop render vi.pat last vi.skip fuel
      ⟨first, vi.failures.getD 1, 0, run⟩).map fun r =>
    if r.2.2.successes = 0 then .error (.noVersionFound vi.pat first) else .ok r

/-- Embedding of `BundleVersion.enumerate`: parse `from` and `to`, then run
the enumeration loop and raise `NoVersionFound` when nothing succeeded. -/
def enumerate (render : Render) (fuel : Nat) (vi : VersionsInfo) (run : RunState) :
    Option (Except EnumError (List Step × List BundleVersion × EnumState)) :=
  match parseImageVersion vi.fromVer with
  | none => some (.error (.malformedVersion vi.fromVer))
  | some first =>
    match parsedLast vi with
    | none => some (.error (.malformedVersion (vi.toVer.getD "")))
    | some last => enumerateFrom render fuel vi run first last

/-- One element of the `entries` list built by `OlmChannelParser._load_entries`:
a `name` and, for every entry after the first, a `replaces`. -/
structure CatalogEntry where
  name : String
  replaces : Option String := none
  deriving DecidableEq, Repr

/-- One turn of the inner `for y in b.yamls` loop of `_load_entries`, on the
entries list kept in reverse (the head is the entry appended last): a document
of schema `olm.bundle` appends `dict(name=y["name"])`; then — whatever the
schema — when more than one entry exists, the last entry's `replaces` is set
to the name of the one before it. -/
def entriesStepRev (entries : List CatalogEntry) (y : YamlDoc) : List CatalogEntry :=
  let entries :=
    if y.schema = "olm.bundle" then ⟨y.name, none⟩ :: entries else entries
  match entries with
  | e2 :: e1 :: rest => ⟨e2.name, some e1.name⟩ :: e1 :: rest
  | l => l

/-- The `_load_entries` entry fold over a stream of documents, reverse order
accumulator. -/
def buildEntriesRev (docs : List YamlDoc) (acc : List CatalogEntry) : List CatalogEntry :=
  docs.foldl entriesStepRev acc

/-- The entries list `_load_entries` builds from a stream of documents, in
discovery order. -/
def buildEntries (docs : List YamlDoc) : List CatalogEntry :=
  (buildEntriesRev docs []).reverse

/-- The documents of a sequence of discovered bundles, in discovery order
(`for b in BundleVersion.enumerate(...): for y in b.yamls`). -/
def bundleDocs (bs : List BundleVersion) : List YamlDoc :=
  (bs.map BundleVersion.yamls).flatten

/-- Modelled from the spec at the `yaml.safe_dump` interface: the serialized
`entries` block (`[]` for an empty list, otherwise one `- name:` item per
entry with its optional `replaces`, keys in alphabetical order, with a
trailing newline). -/
def dumpEntry (e : CatalogEntry) : String :=
  "- name: " ++ e.name ++ "\n" ++
    (match e.replaces with
     | none => ""
     | some r => "  replaces: " ++ r ++ "\n")

/-- Serialization of the whole entries list, `yaml.safe_dump(entries)`. -/
def dumpEntries : List CatalogEntry → String
  | [] => "[]\n"
  | es => String.join (es.map dumpEntry)

/-- The result of `OlmChannelParser._parsed` (the regex over the channel
document) combined with `yaml.safe_load` of its `_versions:` section, at their
interface: `none` when the regex does not match (no `_versions:` marker line),
otherwise the prologue (group 1), the parsed directive list (group 2 through
`yaml.safe_load`; `none` when that section is empty) and the optional epilogue
(group 3). -/
structure ParsedChannel where
  matched : Option (String × Option (List VersionsInfo) × Option String)
  deriving Repr

/-- The source's `yaml_prologue_string` property. -/
def yaml_prologue_string (p : ParsedChannel) : String :=
  match p.matched with
  | none => ""
  | some (pro, _, _) => pro

/-- The source's `image_versions` property. -/
def image_versions (p : ParsedChannel) : Option (List VersionsInfo) :=
  match p.matched with
  | none => none
  | some (_, vs, _) => vs

/-- The source's `yaml_epilogue_string` property. -/
def yaml_epilogue_string (p : ParsedChannel) : String :=
  match p.matched with
  | some (_, _, some e) => e
  | _ => ""

/-- How `_load_entries` can terminate abnormally: the `TypeError` Python
raises on `for version in None` when there is no directive section, and the
`ValueError`s propagating out of `BundleVersion.enumerate`. -/
inductive ChannelError
  | typeError
  | enumError (e : EnumError)
  deriving DecidableEq, Repr

/-- The `for version in versions:` loop of `_load_entries`: enumerate each
directive in order against the shared state, folding every discovered
bundle's documents into the (reversed) entries list. -/
def loadEntriesLoop (render : Render) (fuel : Nat) :
    List VersionsInfo → RunState → List CatalogEntry →
    Option (Except EnumError (List CatalogEntry × RunState))
  | [], run, acc => some (.ok (acc, run))
  | vi :: rest, run, acc =>
    match enumerate render fuel vi run with
    | none => none
    | some (.error e) => some (.error e)
    | some (.ok (_, ys, fin)) =>
      loadEntriesLoop render fuel rest fin.run (buildEntriesRev (bundleDocs ys) acc)

/-- The warnings logged directly by `_load_entries`: one warning when the
channel has no (or an empty) expansion section. -/
def load_entries_warnings (p : ParsedChannel) : List String :=
  match image_versions p with
  | none => ["Found channel without an expansion section"]
  | some [] => ["Found channel without an expansion section"]
  | some (_ :: _) => []

/-- Embedding of `OlmChannelParser._load_entries`.  When the directive section
is missing the source logs a warning and assigns the unexpanded document, but
then still executes `for version in versions:` with `versions = None`, which
raises `TypeError`; with a (possibly empty) directive list it runs every
enumeration and assigns the reassembled document
`"\n" + prologue + "\n" + "entries:\n" + dump + "\n" + epilogue + "\n"`
(the f-string of the source, whose template starts and ends with a newline and
puts each substitution on a line of its own).  Returns the final
`olm_channel_yaml` and state, or the error raised. -/
def load_entries (render : Render) (fuel : Nat) (p : ParsedChannel) (run : RunState) :
    Option (Except ChannelError (String × RunState)) :=
  match image_versions p with
  | none => some (.error .typeError)
  | some vs =>
    match loadEntriesLoop render fuel vs run [] with
    | none => none
    | some (.error e) => some (.error (.enumError e))
    | some (.ok (accRev, run')) =>
      some (.ok ("\n" ++ yaml_prologue_string p ++ "\n" ++ "entries:\n" ++
                   dumpEntries accRev.reverse ++ "\n" ++ yaml_epilogue_string p ++ "\n",
                 run'))

/-- Sequential probing of a list of image references with expected versions
through `BundleVersion.load`, threading the process-wide state: the abstract
shape of every probe the script performs in one run, across all enumeration
specs and channels. -/
def processLoads (render : Render) :
    List (String × ImageVersion) → RunState → List (Option BundleVersion) × RunState
  | [], run => ([], run)
  | (n, v) :: rest, run =>
    let r := load render run n v
    let rec' := processLoads render rest r.2
    (r.1 :: rec'.1, rec'.2)

/-- The cache/render-ledger coupling that holds of the process state: every
image name was rendered at most once, and it is cached exactly when it was
rendered. -/
def cacheConsistent (run : RunState) : Prop :=
  (∀ n, run.renderCalls.count n ≤ 1) ∧
  (∀ n, (cacheLookup run.cache n).isSome = true ↔ n ∈ run.renderCalls)

/-- Steps of a trace that actually probed an image (skip-listed cursors probe
nothing and produce no outcome). -/
def probeSteps (tr : List Step) : List Step :=
  tr.filter fun s => !(s.kind == StepKind.skipped)

/-- Length of the leading run of failure outcomes of a trace. -/
def leadFail : List Step → Nat
  | [] => 0
  | s :: rest => if s.kind == StepKind.failure then leadFail rest + 1 else 0

/-- The number of consecutive failure outcomes immediately preceding
termination: the trailing run of failures among the probe outcomes. -/
def trailingFailures (tr : List Step) : Nat :=
  leadFail (probeSteps tr).reverse

/-- The number of failure outcomes of a trace. -/
def countFail (tr : List Step) : Nat :=
  tr.countP fun s => s.kind == StepKind.failure

/-- The number of success outcomes of a trace. -/
def countSucc (tr : List Step) : Nat :=
  tr.countP fun s => s.kind == StepKind.success

/-- Decides that an entries list is a well-formed `replaces` chain when the
first entry's `replaces` is `r`: each subsequent entry's `replaces` is the
name of the entry just before it. -/
def chainFrom : Option String → List CatalogEntry → Bool
  | _, [] => true
  | r, e :: rest => (e.replaces == r) && chainFrom (some e.name) rest

/-- The seed `chainFrom` reaches after consuming a list: the name of its last
entry, or the initial seed for an empty list. -/
def chainSeedAfter (r : Option String) : List CatalogEntry → Option String
  | [] => r
  | e :: rest => chainSeedAfter (some e.name) rest

/-- Well-formedness of the reversed entries accumulator of `_load_entries`:
each entry's `replaces` is the name of the entry after it in the reversed
list, and the oldest entry has none. -/
def revChainOK : List CatalogEntry → Bool
  | [] => true
  | [e] => e.replaces == none
  | e2 :: e1 :: rest => (e2.replaces == some e1.name) && revChainOK (e1 :: rest)

/-! Concrete scenarios used to test the claims on explicit inputs. -/

/-- A renderer document of schema `olm.bundle` named `nm`, declaring package
version `v`. -/
def pkgDoc (nm v : String) : YamlDoc :=
  ⟨"olm.bundle", nm, [⟨"olm.package", v⟩]⟩

/-- A scripted renderer succeeding only at patch levels 1 and 3 of the
`a…` image series. -/
def c4render : Render := fun n =>
  if n = "a1.0.1" then some [pkgDoc "op.1.0.1" "1.0.1"]
  else if n = "a1.0.3" then some [pkgDoc "op.1.0.3" "1.0.3"]
  else none

/-- A spec starting at `1.0.0` with a failure budget of 1 and no upper
bound. -/
def c4spec : VersionsInfo :=
  { pat := "a@@VERSION@@", fromVer := "1.0.0", failures := some 1 }

/-- The enumeration of `c4spec` against `c4render` from an empty cache. -/
def c4res : Option (Except EnumError (List Step × List BundleVersion × EnumState)) :=
  enumerate c4render 5 c4spec emptyRun

/-- The probe outcomes of that enumeration. -/
def c4kinds : List StepKind :=
  match c4res with
  | some (.ok (tr, _, _)) => tr.map Step.kind
  | _ => []

/-- The render invocations that enumeration performed. -/
def c4calls : List String :=
  match c4res with
  | some (.ok (_, _, fin)) => fin.run.renderCalls
  | _ => []

/-- The final failure counter of that enumeration. -/
def c4failures : Int :=
  match c4res with
  | some (.ok (_, _, fin)) => fin.failures
  | _ => 0

/-- A scripted renderer for two specs whose patterns map different cursors to
the same image name `x1.0.0y9.9.9z`. -/
def c2render : Render := fun n =>
  if n = "x1.0.0y9.9.9z" then some [pkgDoc "op.1.0.0" "1.0.0"]
  else if n = "x1.0.0y9.9.8z" then some [pkgDoc "op.9.9.8" "9.9.8"]
  else none

/-- First spec: enumerates exactly the cursor `1.0.0`, probing the image
`x1.0.0y9.9.9z`. -/
def c2spec1 : VersionsInfo :=
  { pat := "x@@VERSION@@y9.9.9z", fromVer := "1.0.0", toVer := some "1.0.0" }

/-- Second spec: enumerates the cursors `9.9.8` and `9.9.9`; its cursor
`9.9.9` probes the image name the first spec already cached; `1.0.0` is on
its skip list. -/
def c2spec2 : VersionsInfo :=
  { pat := "x1.0.0y@@VERSION@@z", fromVer := "9.9.8", toVer := some "9.9.9",
    skip := ["1.0.0"] }

/-- The first spec's enumeration, from an empty cache. -/
def c2stage1 : Option (Except EnumError (List Step × List BundleVersion × EnumState)) :=
  enumerate c2render 3 c2spec1 emptyRun

/-- The process state after the first spec. -/
def c2run1 : RunState :=
  match c2stage1 with
  | some (.ok (_, _, fin)) => fin.run
  | _ => emptyRun

/-- The second spec's enumeration, sharing the cache with the first. -/
def c2stage2 : Option (Except EnumError (List Step × List BundleVersion × EnumState)) :=
  enumerate c2render 4 c2spec2 c2run1

/-- The versions the second spec's enumeration yields, in order. -/
def c2versions : List ImageVersion :=
  match c2stage2 with
  | some (.ok (_, ys, _)) => ys.map BundleVersion.version
  | _ => []

/-- A scripted renderer succeeding only at `img1.0.0`. -/
def c9render : Render := fun n =>
  if n = "img1.0.0" then some [pkgDoc "op.v1.0.0" "1.0.0"] else none

/-- A one-version spec for the channel round-trip scenario. -/
def c9spec : VersionsInfo :=
  { pat := "img@@VERSION@@", fromVer := "1.0.0", toVer := some "1.0.0" }

/-- A parsed channel with a one-line prologue, one directive and a one-line
epilogue. -/
def c9parsed : ParsedChannel :=
  ⟨some ("schema: olm.channel\n", some [c9spec], some "name: stable\n")⟩

/-- The channel document `_load_entries` reconstructs in that scenario. -/
def c9out : String :=
  match load_entries c9render 5 c9parsed emptyRun with
  | some (.ok (s, _)) => s
  | _ => ""

/-- A renderer that always fails. -/
def failRender : Render := fun _ => none

/-- A scripted renderer succeeding at `img:1.0.0` and `img:1.0.2`. -/
def w2render : Render := fun n =>
  if n = "img:1.0.0" then some [pkgDoc "op.1.0.0" "1.0.0"]
  else if n = "img:1.0.2" then some [pkgDoc "op.1.0.2" "1.0.2"]
  else none

/-- Whether the second spec's enumeration in the shared-cache scenario
terminated normally. -/
def c2ok : Bool :=
  match c2stage2 with
  | some (.ok _) => true
  | _ => false

/-- The cache-hit flags of the second spec's trace in that scenario. -/
def c2cached : List Bool :=
  match c2stage2 with
  | some (.ok (tr, _, _)) => tr.map Step.cached
  | _ => []

/-- The trace of the budget scenario's enumeration loop. -/
def c4tr : List Step :=
  [⟨⟨"", 1, 0, 0⟩, .failure, false⟩,
   ⟨⟨"", 1, 0, 1⟩, .success, false⟩,
   ⟨⟨"", 1, 0, 2⟩, .failure, false⟩]

/-- The bundles the budget scenario's enumeration yields. -/
def c4ys : List BundleVersion :=
  [⟨⟨"", 1, 0, 1⟩, [pkgDoc "op.1.0.1" "1.0.1"]⟩]

/-- The final loop state of the budget scenario. -/
def c4fin : EnumState :=
  ⟨⟨"", 1, 0, 3⟩, -1, 1,
   ⟨[("a1.0.2", none),
     ("a1.0.1", some ⟨⟨"", 1, 0, 1⟩, [pkgDoc "op.1.0.1" "1.0.1"]⟩),
     ("a1.0.0", none)],
    ["a1.0.0", "a1.0.1", "a1.0.2"], []⟩⟩

/-- The trace of the always-failing enumeration with budget 1. -/
def w1tr : List Step :=
  [⟨⟨"v", 2, 0, 0⟩, .failure, false⟩, ⟨⟨"v", 2, 0, 1⟩, .failure, false⟩]

/-- The final loop state of the always-failing enumeration with budget 1. -/
def w1fin : EnumState :=
  ⟨⟨"v", 2, 0, 2⟩, -1, 0,
   ⟨[("bv2.0.1", none), ("bv2.0.0", none)], ["bv2.0.0", "bv2.0.1"], []⟩⟩

/-- The trace of the skip-list scenario against `w2render`. -/
def w2tr : List Step :=
  [⟨⟨"", 1, 0, 0⟩, .success, false⟩,
   ⟨⟨"", 1, 0, 1⟩, .skipped, false⟩,
   ⟨⟨"", 1, 0, 2⟩, .success, false⟩]

/-- The bundles the skip-list scenario yields. -/
def w2ys : List BundleVersion :=
  [⟨⟨"", 1, 0, 0⟩, [pkgDoc "op.1.0.0" "1.0.0"]⟩,
   ⟨⟨"", 1, 0, 2⟩, [pkgDoc "op.1.0.2" "1.0.2"]⟩]

/-- The final loop state of the skip-list scenario. -/
def w2fin : EnumState :=
  ⟨⟨"", 1, 0, 3⟩, 1, 2,
   ⟨[("img:1.0.2", some ⟨⟨"", 1, 0, 2⟩, [pkgDoc "op.1.0.2" "1.0.2"]⟩),
     ("img:1.0.0", some ⟨⟨"", 1, 0, 0⟩, [pkgDoc "op.1.0.0" "1.0.0"]⟩)],
    ["img:1.0.0", "img:1.0.2"], []⟩⟩

/-- A spec with failure budget 0 for the no-version-found scenario. -/
def vi8 : VersionsInfo :=
  { pat := "b@@VERSION@@", fromVer := "1.0.0", failures := some 0 }

/-- The trace of the no-version-found scenario. -/
def w8tr : List Step := [⟨⟨"", 1, 0, 0⟩, .failure, false⟩]

/-- The final loop state of the no-version-found scenario. -/
def w8fin : EnumState :=
  ⟨⟨"", 1, 0, 1⟩, -1, 0, ⟨[("b1.0.0", none)], ["b1.0.0"], []⟩⟩

/-- A renderer declaring package version `2.0.1` for every image. -/
def c6render : Render := fun _ => some [pkgDoc "op" "2.0.1"]

/-- A renderer declaring package version `1.0.0` for every image. -/
def c7render : Render := fun _ => some [pkgDoc "op" "1.0.0"]

/-- The state after the round-trip scenario. -/
def c9run : RunState :=
  ⟨[("img1.0.0", some ⟨⟨"", 1, 0, 0⟩, [pkgDoc "op.v1.0.0" "1.0.0"]⟩)],
   ["img1.0.0"], []⟩

/-! Helper lemmas about the version order. -/

theorem vlt_iff (a b : ImageVersion) :
    vlt a b = true ↔
      (a.major < b.major ∨ (a.major = b.major ∧
        (a.minor < b.minor ∨ (a.minor = b.minor ∧ a.patch < b.patch)))) := by
  simp [vlt]

theorem vle_iff (a b : ImageVersion) :
    vle a b = true ↔
      (a.major < b.major ∨ (a.major = b.major ∧
        (a.minor < b.minor ∨ (a.minor = b.minor ∧ a.patch ≤ b.patch)))) := by
  simp [vle]

theorem vlt_inc (v : ImageVersion) : vlt v (inc_patchlevel v) = true := by
  simp [vlt_iff, inc_patchlevel]

theorem vle_of_vlt {a b : ImageVersion} (h : vlt a b = true) : vle a b = true := by
  rw [vlt_iff] at h
  rw [vle_iff]
  omega

theorem vle_trans {a b c : ImageVersion} (h1 : vle a b = true) (h2 : vle b c = true) :
    vle a c = true := by
  rw [vle_iff] at h1 h2 ⊢
  omega

theorem vlt_of_vlt_of_vle {a b c : ImageVersion} (h1 : vlt a b = true)
    (h2 : vle b c = true) : vlt a c = true := by
  rw [vlt_iff] at h1 ⊢
  rw [vle_iff] at h2
  omega

/-! Helper lemmas about `load` and `_do_load`. -/

theorem load_hit {run : RunState} {n : String} {o : Option BundleVersion}
    (render : Render) (v : ImageVersion) (h : cacheLookup run.cache n = some o) :
    load render run n v = (o, run) := by
  simp [load, h]

theorem load_miss {run : RunState} {n : String} (render : Render) (v : ImageVersion)
    (h : cacheLookup run.cache n = none) :
    load render run n v =
      ((do_load render n v).1,
       ⟨(n, (do_load render n v).1) :: run.cache,
        run.renderCalls ++ [n],
        run.warnings ++ (do_load render n v).2⟩) := by
  simp [load, h]

theorem do_load_version {render : Render} {n : String} {v : ImageVersion}
    {bv : BundleVersion} (h : (do_load render n v).1 = some bv) : bv.version = v := by
  cases hr : render n with
  | none => simp [do_load, hr] at h
  | some yamls =>
    cases hf : findPackageVersion yamls with
    | none => simp [do_load, hr, hf] at h
    | some a =>
      by_cases ha : a = verStr v
      · simp [do_load, hr, hf, ha] at h
        rw [← h]
      · simp [do_load, hr, hf, ha] at h

/-- After a `load`, the name is cached and maps to the outcome returned. -/
theorem load_caches (render : Render) (run : RunState) (n : String) (v : ImageVersion) :
    cacheLookup (load render run n v).2.cache n = some (load render run n v).1 := by
  unfold load
  cases h : cacheLookup run.cache n with
  | none => simp [cacheLookup]
  | some o => simp [h]

/-- A cached outcome survives any further `load`. -/
theorem load_preserves (render : Render) (run : RunState) (n m : String)
    (v : ImageVersion) (o : Option BundleVersion) (h : cacheLookup run.cache m = some o) :
    cacheLookup (load render run n v).2.cache m = some o := by
  unfold load
  cases hl : cacheLookup run.cache n with
  | none =>
    have hnm : n ≠ m := by
      intro he
      rw [he] at hl
      rw [hl] at h
      exact Option.noConfusion h
    simp [cacheLookup, hnm, h]
  | some o' => simp [h]

/-! Helper lemmas about the enumeration loop. -/

theorem enumCond_true_nonneg {last : Option ImageVersion} {st : EnumState}
    (h : enumCond last st = true) : 0 ≤ st.failures := by
  simp only [enumCond, Bool.and_eq_true, decide_eq_true_eq] at h
  exact h.1

theorem enumCond_false_iff (last : Option ImageVersion) (st : EnumState) :
    enumCond last st = false ↔
      (st.failures < 0 ∨ ∃ l, last = some l ∧ vle st.current l = false) := by
  cases last with
  | none =>
    simp only [enumCond, Bool.and_eq_true]
    constructor
    · intro h
      left
      by_contra hge
      simp only [not_lt] at hge
      simp [hge] at h
    · intro h
      rcases h with h | ⟨l, hl, _⟩
      · simp [decide_eq_true_eq]
        omega
      · exact Option.noConfusion hl
  | some l =>
    simp only [enumCond]
    constructor
    · intro h
      rcases Bool.and_eq_false_iff.mp h with h1 | h2
      · left
        by_contra hge
        simp only [not_lt] at hge
        simp [hge] at h1
      · right
        exact ⟨l, rfl, h2⟩
    · intro h
      rcases h with h | ⟨l', hl', hv⟩
      · apply Bool.and_eq_false_iff.mpr
        left
        simpa using (by omega : ¬ (0 ≤ st.failures))
      · apply Bool.and_eq_false_iff.mpr
        right
        cases hl'
        exact hv

/-- Exhaustive description of one loop iteration at an arbitrary state. -/
theorem enumStep_facts {render : Render} {pat : String} {to_skip : List String}
    {st : EnumState} {s : Step} {ys1 : List BundleVersion} {st' : EnumState}
    (h : enumStep render pat to_skip st = (s, ys1, st')) :
    s.version = st.current ∧
    st'.current = inc_patchlevel st.current ∧
    st'.failures = st.failures - (if s.kind = StepKind.failure then 1 else 0) ∧
    st'.successes = st.successes + (if s.kind = StepKind.success then 1 else 0) ∧
    ys1.length = (if s.kind = StepKind.success then 1 else 0) ∧
    ((s.kind == StepKind.skipped) = to_skip.contains (reprV st.current)) ∧
    (s.cached = false → ∀ bv ∈ ys1, bv.version = st.current) := by
  simp only [enumStep] at h
  by_cases hskip : to_skip.contains (reprV st.current) = true
  · rw [if_pos hskip] at h
    simp only [Prod.mk.injEq] at h
    obtain ⟨rfl, rfl, rfl⟩ := h
    refine ⟨rfl, rfl, by simp, by simp, by simp, ?_, by simp⟩
    rw [hskip]
    rfl
  · rw [if_neg hskip] at h
    rcases hl : load render st.run (substVersion pat (reprV st.current)) st.current
      with ⟨o, run'⟩
    rw [hl] at h
    cases o with
    | none =>
      simp only [Prod.mk.injEq] at h
      obtain ⟨rfl, rfl, rfl⟩ := h
      simp only [Bool.not_eq_true] at hskip
      refine ⟨rfl, rfl, by simp, by simp, by simp, ?_, by simp⟩
      rw [hskip]
      rfl
    | some bv =>
      simp only [Prod.mk.injEq] at h
      obtain ⟨rfl, rfl, rfl⟩ := h
      simp only [Bool.not_eq_true] at hskip
      refine ⟨rfl, rfl, by simp, by simp, by simp, ?_, ?_⟩
      · rw [hskip]
        rfl
      intro hc bv' hbv'
      simp only [List.mem_singleton] at hbv'
      subst hbv'
      have hmiss : cacheLookup st.run.cache (substVersion pat (reprV st.current)) = none := by
        cases hcl : cacheLookup st.run.cache (substVersion pat (reprV st.current)) with
        | none => rfl
        | some o' => rw [hcl] at hc; simp at hc
      rw [load_miss render st.current hmiss] at hl
      simp only [Prod.mk.injEq] at hl
      exact do_load_version hl.1

/-- The accounting invariant of the enumeration loop: a terminated loop ends
with the loop condition false, the failure counter decremented once per
failure outcome and never below `-1`, the success counter incremented once
per success outcome, one yielded bundle per success outcome, and a step is
a skip exactly when its cursor's string is on the skip list. -/
theorem enumLoop_spec {render : Render} {pat : String} {last : Option ImageVersion}
    {to_skip : List String} :
    ∀ {fuel : Nat} {st : EnumState} {tr : List Step} {ys : List BundleVersion}
      {fin : EnumState},
      enumLoop render pat last to_skip fuel st = some (tr, ys, fin) →
      enumCond last fin = false ∧
      fin.failures = st.failures - (countFail tr : Int) ∧
      fin.successes = st.successes + countSucc tr ∧
      ys.length = countSucc tr ∧
      (∀ s ∈ tr, (s.kind == StepKind.skipped) = to_skip.contains (reprV s.version)) ∧
      (-1 ≤ st.failures → -1 ≤ fin.failures) := by
  intro fuel
  induction fuel with
  | zero =>
    intro st tr ys fin h
    cases hc : enumCond last st with
    | true => simp [enumLoop, hc] at h
    | false =>
      simp only [enumLoop, hc, Bool.false_eq_true, if_false, Option.some.injEq,
        Prod.mk.injEq] at h
      obtain ⟨rfl, rfl, rfl⟩ := h
      exact ⟨hc, by simp [countFail], by simp [countSucc], by simp [countSucc],
        by simp, fun hl => hl⟩
  | succ fuel ih =>
    intro st tr ys fin h
    cases hc : enumCond last st with
    | false =>
      simp only [enumLoop, hc, Bool.false_eq_true, if_false, Option.some.injEq,
        Prod.mk.injEq] at h
      obtain ⟨rfl, rfl, rfl⟩ := h
      exact ⟨hc, by simp [countFail], by simp [countSucc], by simp [countSucc],
        by simp, fun hl => hl⟩
    | true =>
      simp only [enumLoop, hc, if_true] at h
      rcases he : enumStep render pat to_skip st with ⟨s, ys1, st'⟩
      rw [he] at h
      cases hrec : enumLoop render pat last to_skip fuel st' with
      | none => rw [hrec] at h; exact Option.noConfusion h
      | some r =>
        rcases r with ⟨tr', ys', fin'⟩
        rw [hrec] at h
        simp only [Option.some.injEq, Prod.mk.injEq] at h
        obtain ⟨rfl, rfl, rfl⟩ := h
        obtain ⟨hcond, hfail, hsucc, hlen, hskips, hlb⟩ := ih hrec
        obtain ⟨hv, hcur, hfail1, hsucc1, hlen1, hskip1, _⟩ := enumStep_facts he
        have hc0 : 0 ≤ st.failures := enumCond_true_nonneg hc
        refine ⟨hcond, ?_, ?_, ?_, ?_, ?_⟩
        · rw [hfail, hfail1]
          simp only [countFail, List.countP_cons, beq_iff_eq]
          by_cases hk : s.kind = StepKind.failure <;> simp [hk] <;> push_cast <;> omega
        · rw [hsucc, hsucc1]
          simp only [countSucc, List.countP_cons, beq_iff_eq]
          by_cases hk : s.kind = StepKind.success <;> simp [hk] <;> omega
        · rw [List.length_append, hlen, hlen1]
          simp only [countSucc, List.countP_cons, beq_iff_eq]
          by_cases hk : s.kind = StepKind.success <;> simp [hk] <;> omega
        · intro s0 hs0
          rcases List.mem_cons.mp hs0 with rfl | hmem
          · rw [hv]
            exact hskip1
          · exact hskips s0 hmem
        · intro _
          apply hlb
          rw [hfail1]
          split <;> omega

theorem leadFail_le_countP (l : List Step) :
    leadFail l ≤ l.countP fun s => s.kind == StepKind.failure := by
  induction l with
  | nil => simp [leadFail]
  | cons s rest ih =>
    rw [List.countP_cons]
    by_cases hk : (s.kind == StepKind.failure) = true
    · rw [leadFail, if_pos hk, hk]
      simp
      omega
    · rw [leadFail, if_neg hk]
      omega

theorem countP_reverse_eq (p : Step → Bool) (l : List Step) :
    l.reverse.countP p = l.countP p := by
  induction l with
  | nil => rfl
  | cons s rest ih =>
    rw [List.reverse_cons, List.countP_append, ih, List.countP_cons, List.countP_cons,
      List.countP_nil]
    omega

theorem countFail_probeSteps (tr : List Step) :
    (probeSteps tr).countP (fun s => s.kind == StepKind.failure) = countFail tr := by
  induction tr with
  | nil => rfl
  | cons s rest ih =>
    simp only [probeSteps, List.filter_cons, countFail, List.countP_cons] at ih ⊢
    by_cases hk : (!(s.kind == StepKind.skipped)) = true
    · rw [if_pos hk, List.countP_cons, ih]
    · rw [if_neg hk, ih]
      have hsk : s.kind = StepKind.skipped := by
        cases hsk' : s.kind with
        | skipped => rfl
        | failure => rw [hsk'] at hk; simp at hk
        | success => rw [hsk'] at hk; simp at hk
      have hf : (s.kind == StepKind.failure) = false := by
        rw [hsk]
        rfl
      rw [hf]
      simp

theorem trailingFailures_le_countFail (tr : List Step) :
    trailingFailures tr ≤ countFail tr := by
  calc trailingFailures tr
      ≤ (probeSteps tr).reverse.countP (fun s => s.kind == StepKind.failure) :=
        leadFail_le_countP _
    _ = (probeSteps tr).countP (fun s => s.kind == StepKind.failure) :=
        countP_reverse_eq _ _
    _ = countFail tr := countFail_probeSteps tr

/-- The ordering invariant of a terminated loop in which no probe was served
from the cache: the yielded bundles are strictly increasing, bounded below by
the starting cursor, and none is on the skip list. -/
theorem enumLoop_fresh_facts {render : Render} {pat : String}
    {last : Option ImageVersion} {to_skip : List String} :
    ∀ {fuel : Nat} {st : EnumState} {tr : List Step} {ys : List BundleVersion}
      {fin : EnumState},
      enumLoop render pat last to_skip fuel st = some (tr, ys, fin) →
      (∀ s ∈ tr, s.cached = false) →
      List.Chain' (fun a b : BundleVersion => vlt a.version b.version = true) ys ∧
      (∀ b ∈ ys, vle st.current b.version = true) ∧
      (∀ b ∈ ys, to_skip.contains (reprV b.version) = false) := by
  intro fuel
  induction fuel with
  | zero =>
    intro st tr ys fin h _
    cases hc : enumCond last st with
    | true => simp [enumLoop, hc] at h
    | false =>
      simp only [enumLoop, hc, Bool.false_eq_true, if_false, Option.some.injEq,
        Prod.mk.injEq] at h
      obtain ⟨rfl, rfl, rfl⟩ := h
      simp
  | succ fuel ih =>
    intro st tr ys fin h hfresh
    cases hc : enumCond last st with
    | false =>
      simp only [enumLoop, hc, Bool.false_eq_true, if_false, Option.some.injEq,
        Prod.mk.injEq] at h
      obtain ⟨rfl, rfl, rfl⟩ := h
      simp
    | true =>
      simp only [enumLoop, hc, if_true] at h
      rcases he : enumStep render pat to_skip st with ⟨s, ys1, st'⟩
      rw [he] at h
      cases hrec : enumLoop render pat last to_skip fuel st' with
      | none => rw [hrec] at h; exact Option.noConfusion h
      | some r =>
        rcases r with ⟨tr', ys', fin'⟩
        rw [hrec] at h
        simp only [Option.some.injEq, Prod.mk.injEq] at h
        obtain ⟨rfl, rfl, rfl⟩ := h
        have hfresh' : ∀ s0 ∈ tr', s0.cached = false := fun s0 hm =>
          hfresh s0 (List.mem_cons_of_mem _ hm)
        have hfreshHead : s.cached = false := hfresh s (List.mem_cons_self _ _)
        obtain ⟨hchain, hbound, hskipfree⟩ := ih hrec hfresh'
        obtain ⟨hv, hcur, _, _, hlen1, hskip1, hver⟩ := enumStep_facts he
        have hstep : vle st.current st'.current = true := by
          rw [hcur]
          exact vle_of_vlt (vlt_inc _)
        have hbound0 : ∀ b ∈ ys', vle st.current b.version = true := fun b hb =>
          vle_trans hstep (hbound b hb)
        cases hys1 : ys1 with
        | nil =>
          subst hys1
          exact ⟨hchain, by simpa using hbound0, by simpa using hskipfree⟩
        | cons bv rest =>
          subst hys1
          have hrest : rest = [] := by
            have := hlen1
            by_cases hk : s.kind = StepKind.success <;> simp [hk] at this <;>
              simpa using this
          subst hrest
          have hbv : bv.version = st.current := by
            apply hver hfreshHead
            simp
          have hkind : s.kind = StepKind.success := by
            by_contra hk
            simp [hk] at hlen1
          have hnotskip : to_skip.contains (reprV st.current) = false := by
            rw [← hskip1, hkind]
            rfl
          refine ⟨?_, ?_, ?_⟩
          · rw [List.singleton_append]
            rw [List.chain'_cons']
            constructor
            · intro y hy
              have hym : y ∈ ys' := List.mem_of_mem_head? hy
              have : vle st'.current y.version = true := hbound y hym
              rw [hbv]
              apply vlt_of_vlt_of_vle (a := st.current) (b := st'.current)
              · rw [hcur]
                exact vlt_inc _
              · exact this
            · exact hchain
          · intro b hb
            rcases List.mem_cons.mp hb with rfl | hmem
            · rw [hbv]
              rw [vle_iff]
              omega
            · exact hbound0 b hmem
          · intro b hb
            rcases List.mem_cons.mp hb with rfl | hmem
            · rw [hbv]
              exact hnotskip
            · exact hskipfree b hmem

/-! Helper lemmas about the render cache. -/

theorem load_consistent (render : Render) (run : RunState) (n : String)
    (v : ImageVersion) (h : cacheConsistent run) :
    cacheConsistent (load render run n v).2 := by
  obtain ⟨hcount, hmem⟩ := h
  unfold load
  cases hl : cacheLookup run.cache n with
  | some o => exact ⟨hcount, hmem⟩
  | none =>
    have hnotin : n ∉ run.renderCalls := by
      intro hin
      have := (hmem n).mpr hin
      rw [hl] at this
      simp at this
    constructor
    · intro m
      simp only [List.count_append]
      by_cases hm : m = n
      · subst hm
        rw [List.count_eq_zero.mpr hnotin]
        simp [List.count_cons]
      · have : List.count m [n] = 0 := by
          apply List.count_eq_zero.mpr
          simp [hm]
        rw [this]
        simpa using hcount m
    · intro m
      by_cases hm : m = n
      · subst hm
        simp [cacheLookup]
      · have hnm : ¬ n = m := fun h' => hm h'.symm
        have hlk : cacheLookup ((n, (do_load render n v).1) :: run.cache) m =
            cacheLookup run.cache m := by
          simp [cacheLookup, hnm]
        constructor
        · intro hx
          rw [hlk] at hx
          have := (hmem m).mp hx
          simp [this]
        · intro hx
          rw [hlk]
          apply (hmem m).mpr
          simp only [List.mem_append, List.mem_singleton] at hx
          rcases hx with hx | hx
          · exact hx
          · exact absurd hx hm

theorem processLoads_preserves (render : Render) :
    ∀ (ps : List (String × ImageVersion)) (run : RunState) (m : String)
      (o : Option BundleVersion),
      cacheLookup run.cache m = some o →
      cacheLookup (processLoads render ps run).2.cache m = some o := by
  intro ps
  induction ps with
  | nil => intro run m o h; exact h
  | cons p rest ih =>
    intro run m o h
    rcases p with ⟨n, v⟩
    simp only [processLoads]
    exact ih _ m o (load_preserves render run n m v o h)

theorem processLoads_facts (render : Render) :
    ∀ (ps : List (String × ImageVersion)) (run : RunState),
      (processLoads render ps run).1.length = ps.length ∧
      (cacheConsistent run → cacheConsistent (processLoads render ps run).2) ∧
      (∀ (i : Nat) (n : String) (v : ImageVersion), ps[i]? = some (n, v) →
        ∃ o, (processLoads render ps run).1[i]? = some o ∧
          cacheLookup (processLoads render ps run).2.cache n = some o) := by
  intro ps
  induction ps with
  | nil =>
    intro run
    refine ⟨rfl, fun h => h, ?_⟩
    intro i n v h
    simp at h
  | cons p rest ih =>
    intro run
    rcases p with ⟨n, v⟩
    obtain ⟨ihlen, ihcons, ihidx⟩ := ih (load render run n v).2
    refine ⟨?_, ?_, ?_⟩
    · simpa [processLoads] using ihlen
    · intro h
      exact ihcons (load_consistent render run n v h)
    · intro i m w h
      cases i with
      | zero =>
        simp only [List.getElem?_cons_zero, Option.some.injEq, Prod.mk.injEq] at h
        obtain ⟨rfl, rfl⟩ := h
        refine ⟨(load render run n v).1, ?_, ?_⟩
        · simp [processLoads]
        · simp only [processLoads]
          exact processLoads_preserves render rest _ n _ (load_caches render run n v)
      | succ i =>
        simp only [List.getElem?_cons_succ] at h
        obtain ⟨o, ho, hc⟩ := ihidx i m w h
        refine ⟨o, ?_, ?_⟩
        · simpa [processLoads] using ho
        · simpa [processLoads] using hc

/-! Helper lemmas about the entries chain. -/

theorem entriesStepRev_revChain (acc : List CatalogEntry) (y : YamlDoc)
    (h : revChainOK acc = true) : revChainOK (entriesStepRev acc y) = true := by
  unfold entriesStepRev
  by_cases hb : y.schema = "olm.bundle"
  · rw [if_pos hb]
    cases acc with
    | nil => rfl
    | cons e1 rest => simpa [revChainOK] using h
  · rw [if_neg hb]
    cases acc with
    | nil => rfl
    | cons e2 rest =>
      cases rest with
      | nil => exact h
      | cons e1 rest' =>
        simp only [revChainOK, Bool.and_eq_true, beq_iff_eq] at h ⊢
        exact ⟨trivial, h.2⟩

theorem buildEntriesRev_revChain (docs : List YamlDoc) :
    ∀ acc, revChainOK acc = true → revChainOK (buildEntriesRev docs acc) = true := by
  induction docs with
  | nil => intro acc h; exact h
  | cons y rest ih =>
    intro acc h
    simp only [buildEntriesRev, List.foldl_cons]
    exact ih _ (entriesStepRev_revChain acc y h)

theorem chainSeedAfter_append (l : List CatalogEntry) (e : CatalogEntry) :
    ∀ r, chainSeedAfter r (l ++ [e]) = some e.name := by
  induction l with
  | nil => intro r; rfl
  | cons x rest ih => intro r; exact ih _

theorem chainFrom_append (l1 : List CatalogEntry) :
    ∀ (r : Option String) (l2 : List CatalogEntry),
      chainFrom r (l1 ++ l2) = (chainFrom r l1 && chainFrom (chainSeedAfter r l1) l2) := by
  induction l1 with
  | nil => intro r l2; simp [chainFrom, chainSeedAfter]
  | cons e rest ih =>
    intro r l2
    simp only [List.cons_append, chainFrom, chainSeedAfter, List.append_eq, ih,
      Bool.and_assoc]

theorem revChain_chainFrom :
    ∀ acc : List CatalogEntry, revChainOK acc = true → chainFrom none acc.reverse = true := by
  intro acc
  induction acc with
  | nil => intro _; rfl
  | cons e2 rest ih =>
    intro h
    cases rest with
    | nil => simpa [chainFrom, revChainOK] using h
    | cons e1 rest' =>
      simp only [revChainOK, Bool.and_eq_true, beq_iff_eq] at h
      obtain ⟨h1, h2⟩ := h
      rw [List.reverse_cons, chainFrom_append, ih h2]
      rw [show (e1 :: rest').reverse = rest'.reverse ++ [e1] from List.reverse_cons _ _,
        chainSeedAfter_append]
      simp [chainFrom, h1]

/-! The claims. -/

/-- C1: the enumeration loop runs while `remainingFailures >= 0` and (`to` is
absent or the cursor is at most `to`), decrementing the failure counter once
per probe failure; a terminated enumeration ends with the counter negative or
the cursor beyond `to` (a state on which the loop stops immediately), and the
number of consecutive failure outcomes immediately preceding termination is
at most `failureBudget + 1`. -/
theorem enumerate_budget_invariant (render : Render) (pat : String)
    (last : Option ImageVersion) (to_skip : List String) (fuel : Nat)
    (budget : Int) (c : ImageVersion) (run : RunState) (tr : List Step)
    (ys : List BundleVersion) (fin : EnumState)
    (hb : 0 ≤ budget)
    (h : enumLoop render pat last to_skip fuel ⟨c, budget, 0, run⟩ = some (tr, ys, fin)) :
    (fin.failures < 0 ∨ ∃ l, last = some l ∧ vle fin.current l = false) ∧
    fin.failures = budget - (countFail tr : Int) ∧
    (trailingFailures tr : Int) ≤ budget + 1 ∧
    enumLoop render pat last to_skip fuel fin = some ([], [], fin) := by
  obtain ⟨hcond, hfail, _, _, _, hlb⟩ := enumLoop_spec h
  have hfail' : fin.failures = budget - (countFail tr : Int) := hfail
  have hfin : -1 ≤ fin.failures := hlb (by omega : (-1 : Int) ≤ budget)
  refine ⟨(enumCond_false_iff last fin).mp hcond, hfail', ?_, ?_⟩
  · have ht : trailingFailures tr ≤ countFail tr := trailingFailures_le_countFail tr
    omega
  · cases fuel with
    | zero => simp [enumLoop, hcond]
    | succ fuel => simp [enumLoop, hcond]

/-- C1 witness: a concrete run with budget 1 and an always-failing renderer. -/
theorem enumerate_budget_invariant_witness :
    (0 : Int) ≤ 1 ∧
    enumLoop failRender "b@@VERSION@@" none [] 5 ⟨⟨"v", 2, 0, 0⟩, 1, 0, emptyRun⟩ =
      some (w1tr, [], w1fin) ∧
    w1fin.failures = 1 - (countFail w1tr : Int) ∧
    (trailingFailures w1tr : Int) ≤ 1 + 1 :=
  ⟨by decide, by decide,
   (enumerate_budget_invariant failRender "b@@VERSION@@" none [] 5 1 ⟨"v", 2, 0, 0⟩
      emptyRun w1tr [] w1fin (by decide) (by decide)).2.1,
   (enumerate_budget_invariant failRender "b@@VERSION@@" none [] 5 1 ⟨"v", 2, 0, 0⟩
      emptyRun w1tr [] w1fin (by decide) (by decide)).2.2.1⟩

/-- C2 counterexample: with the process-wide cache shared between the specs of
a run, a later spec whose pattern maps a cursor onto an image name an earlier
spec already cached is served the cached bundle, so `enumerate` yields the
versions `[9.9.8, 1.0.0]` — not strictly increasing — and the yielded `1.0.0`
is on the spec's skip list; the second trace step is a cache hit. -/
theorem enumerate_ordering_counterexample :
    c2ok = true ∧
    c2versions = [⟨"", 9, 9, 8⟩, ⟨"", 1, 0, 0⟩] ∧
    vlt ⟨"", 9, 9, 8⟩ ⟨"", 1, 0, 0⟩ = false ∧
    ¬ List.Chain' (fun a b : ImageVersion => vlt a b = true) c2versions ∧
    c2spec2.skip.contains (reprV ⟨"", 1, 0, 0⟩) = true ∧
    c2cached = [false, true] := by
  refine ⟨by decide, by decide, by decide, ?_, by decide, by decide⟩
  rw [show c2versions = [⟨"", 9, 9, 8⟩, ⟨"", 1, 0, 0⟩] from by decide]
  rw [List.chain'_cons]
  intro hch
  have := hch.1
  rw [show vlt (⟨"", 9, 9, 8⟩ : ImageVersion) ⟨"", 1, 0, 0⟩ = false from by decide] at this
  exact Bool.noConfusion this

/-- C2 (amended): when no probe of the enumeration is served from a
pre-existing cache entry (in particular when the run cache starts empty and
distinct cursors map to distinct image names), the yielded bundles are
strictly increasing by `(major, minor, patch)` and none has its string on the
skip list; unconditionally, a step is skipped exactly when its cursor's string
is on the skip list, and at a skip-listed cursor the loop body only advances
the cursor — it does not touch the renderer, the cache or the failure
budget. -/
theorem enumerate_ordering_amended (render : Render) (pat : String)
    (last : Option ImageVersion) (to_skip : List String) (fuel : Nat)
    (st : EnumState) (tr : List Step) (ys : List BundleVersion) (fin : EnumState)
    (h : enumLoop render pat last to_skip fuel st = some (tr, ys, fin))
    (hfresh : ∀ s ∈ tr, s.cached = false) :
    List.Chain' (fun a b : BundleVersion => vlt a.version b.version = true) ys ∧
    (∀ b ∈ ys, to_skip.contains (reprV b.version) = false) ∧
    (∀ s ∈ tr, (s.kind == StepKind.skipped) = to_skip.contains (reprV s.version)) ∧
    (∀ st' : EnumState, to_skip.contains (reprV st'.current) = true →
      enumStep render pat to_skip st' =
        (⟨st'.current, StepKind.skipped, false⟩, [],
         { st' with current := inc_patchlevel st'.current })) := by
  obtain ⟨hchain, _, hskipfree⟩ := enumLoop_fresh_facts h hfresh
  obtain ⟨_, _, _, _, hsk, _⟩ := enumLoop_spec h
  refine ⟨hchain, hskipfree, hsk, ?_⟩
  intro st' hskip
  unfold enumStep
  rw [if_pos hskip]

/-- C2 witness: a fresh run with a skip-listed middle version yields the
strictly increasing, skip-free sequence `[1.0.0, 1.0.2]`. -/
theorem enumerate_ordering_amended_witness :
    enumLoop w2render "img:@@VERSION@@" (some ⟨"", 1, 0, 2⟩) ["1.0.1"] 5
      ⟨⟨"", 1, 0, 0⟩, 1, 0, emptyRun⟩ = some (w2tr, w2ys, w2fin) ∧
    (∀ s ∈ w2tr, s.cached = false) ∧
    List.Chain' (fun a b : BundleVersion => vlt a.version b.version = true) w2ys ∧
    (∀ b ∈ w2ys, (["1.0.1"] : List String).contains (reprV b.version) = false) :=
  ⟨by decide, by decide,
   (enumerate_ordering_amended w2render "img:@@VERSION@@" (some ⟨"", 1, 0, 2⟩) ["1.0.1"]
      5 ⟨⟨"", 1, 0, 0⟩, 1, 0, emptyRun⟩ w2tr w2ys w2fin (by decide) (by decide)).1,
   (enumerate_ordering_amended w2render "img:@@VERSION@@" (some ⟨"", 1, 0, 2⟩) ["1.0.1"]
      5 ⟨⟨"", 1, 0, 0⟩, 1, 0, emptyRun⟩ w2tr w2ys w2fin (by decide) (by decide)).2.1⟩

/-- C3: the entries list the channel expander builds from any stream of
documents — the concatenation, in discovery order, of the documents of the
bundles of every spec of the channel — is a `replaces` chain: the first entry
has no `replaces` and every later entry's `replaces` is the previous entry's
name; folding spec after spec into the shared accumulator equals one fold of
the concatenated stream. -/
theorem channel_chain_invariant :
    (∀ docs : List YamlDoc, chainFrom none (buildEntries docs) = true) ∧
    (∀ (acc : List CatalogEntry) (d1 d2 : List YamlDoc),
      buildEntriesRev d2 (buildEntriesRev d1 acc) = buildEntriesRev (d1 ++ d2) acc) := by
  constructor
  · intro docs
    exact revChain_chainFrom _ (buildEntriesRev_revChain docs [] rfl)
  · intro acc d1 d2
    simp [buildEntriesRev, List.foldl_append]

/-- C4 counterexample: with budget 1, one failure before a success and a
single failure after it jointly exhaust the budget — the loop stops with the
counter at `-1` and never probes `a1.0.3`, although that probe would have
succeeded and the claim promises one more tolerated consecutive failure after
the success. -/
theorem failure_budget_not_reset_counterexample :
    c4kinds = [.failure, .success, .failure] ∧
    c4failures = -1 ∧
    c4calls = ["a1.0.0", "a1.0.1", "a1.0.2"] ∧
    c4calls.contains "a1.0.3" = false ∧
    c4render "a1.0.3" ≠ none := by
  refine ⟨by decide, by decide, by decide, by decide, by decide⟩

/-- C4 (amended): the failure budget counts total probe failures over the
whole enumeration: however the trace is split, the final counter is the
initial one minus the failures of both parts, so failures before an
intervening success still count against the budget afterwards, and successes
never replenish it. -/
theorem failure_budget_total_amended (render : Render) (pat : String)
    (last : Option ImageVersion) (to_skip : List String) (fuel : Nat)
    (st : EnumState) (tr : List Step) (ys : List BundleVersion) (fin : EnumState)
    (t1 t2 : List Step)
    (h : enumLoop render pat last to_skip fuel st = some (tr, ys, fin))
    (hsplit : tr = t1 ++ t2) :
    fin.failures = st.failures - (countFail t1 : Int) - (countFail t2 : Int) ∧
    (-1 ≤ st.failures → -1 ≤ fin.failures) := by
  obtain ⟨_, hfail, _, _, _, hlb⟩ := enumLoop_spec h
  subst hsplit
  rw [hfail]
  constructor
  · simp only [countFail, List.countP_append]
    push_cast
    ring
  · intro h0
    have := hlb h0
    omega

/-- C4 witness: the split of the concrete budget-1 trace around its success. -/
theorem failure_budget_total_amended_witness :
    enumLoop c4render "a@@VERSION@@" none [] 5 ⟨⟨"", 1, 0, 0⟩, 1, 0, emptyRun⟩ =
      some (c4tr, c4ys, c4fin) ∧
    c4tr = [⟨⟨"", 1, 0, 0⟩, .failure, false⟩, ⟨⟨"", 1, 0, 1⟩, .success, false⟩] ++
      [⟨⟨"", 1, 0, 2⟩, .failure, false⟩] ∧
    c4fin.failures = (⟨⟨"", 1, 0, 0⟩, 1, 0, emptyRun⟩ : EnumState).failures -
      (countFail [⟨⟨"", 1, 0, 0⟩, .failure, false⟩, ⟨⟨"", 1, 0, 1⟩, .success, false⟩] : Int) -
      (countFail [⟨⟨"", 1, 0, 2⟩, .failure, false⟩] : Int) :=
  ⟨by decide, by decide,
   (failure_budget_total_amended c4render "a@@VERSION@@" none [] 5
      ⟨⟨"", 1, 0, 0⟩, 1, 0, emptyRun⟩ c4tr c4ys c4fin
      [⟨⟨"", 1, 0, 0⟩, .failure, false⟩, ⟨⟨"", 1, 0, 1⟩, .success, false⟩]
      [⟨⟨"", 1, 0, 2⟩, .failure, false⟩] (by decide) (by decide)).1⟩

/-- C5: on a channel document without a directive section the source does log
the missing-directive warning and does assign the unexpanded document, but
then still runs `for version in versions:` with `versions = None`, so
`_load_entries` raises `TypeError` instead of returning the document
unchanged — the claimed pass-through behaviour is the evident intent of the
dead assignment, and the missing early return is the slip. -/
theorem missing_directive_type_error (render : Render) (fuel : Nat)
    (p : ParsedChannel) (run : RunState) (h : image_versions p = none) :
    load_entries render fuel p run = some (.error .typeError) ∧
    load_entries_warnings p = ["Found channel without an expansion section"] := by
  constructor
  · simp [load_entries, h]
  · simp [load_entries_warnings, h]

/-- C5 witness: a channel whose regex found no `_versions:` marker. -/
theorem missing_directive_type_error_witness :
    image_versions ⟨none⟩ = none ∧
    load_entries failRender 1 ⟨none⟩ emptyRun = some (.error .typeError) :=
  ⟨by decide, (missing_directive_type_error failRender 1 ⟨none⟩ emptyRun (by decide)).1⟩

/-- C6: a probe is a failure (`None`) exactly when the renderer fails, or no
returned record declares an `olm.package` property, or the first declared
package version differs from the cursor's version; a mismatch is logged as a
single warning naming both versions, a match returns the bundle under the
cursor's version, and because a mismatch produces the same `None` outcome as
a renderer failure it is treated identically for budget purposes and its
version is never yielded. -/
theorem do_load_failure_characterization (render : Render) (n : String)
    (exp : ImageVersion) (docs : List YamlDoc) (a : String)
    (hr : render n = some docs) (ha : findPackageVersion docs = some a) :
    ((do_load render n exp).1 = none ↔ a ≠ verStr exp) ∧
    (a ≠ verStr exp → do_load render n exp = (none, [mismatchWarning n a exp])) ∧
    (a = verStr exp → do_load render n exp = (some ⟨exp, docs⟩, [])) ∧
    (∀ render2 : Render, render2 n = none → do_load render2 n exp = (none, [])) ∧
    (∀ (render3 : Render) (docs2 : List YamlDoc), render3 n = some docs2 →
      findPackageVersion docs2 = none →
      do_load render3 n exp = (none, [noPackageWarning n])) := by
  refine ⟨?_, ?_, ?_, ?_, ?_⟩
  · by_cases he : a = verStr exp
    · simp [do_load, hr, ha, he]
    · simp [do_load, hr, ha, he]
  · intro he
    simp [do_load, hr, ha, he]
  · intro he
    simp [do_load, hr, ha, he]
  · intro render2 h2
    simp [do_load, h2]
  · intro render3 docs2 h3 hf
    simp [do_load, h3, hf]

/-- C6 witness: a renderer declaring `2.0.1` when `v2.0.0` was requested. -/
theorem do_load_failure_characterization_witness :
    c6render "img" = some [pkgDoc "op" "2.0.1"] ∧
    findPackageVersion [pkgDoc "op" "2.0.1"] = some "2.0.1" ∧
    do_load c6render "img" ⟨"v", 2, 0, 0⟩ =
      (none, [mismatchWarning "img" "2.0.1" ⟨"v", 2, 0, 0⟩]) :=
  ⟨by decide, by decide,
   (do_load_failure_characterization c6render "img" ⟨"v", 2, 0, 0⟩
      [pkgDoc "op" "2.0.1"] "2.0.1" (by decide) (by decide)).2.1 (by decide)⟩

/-- C7: starting from a consistent state (in particular the empty one), any
sequence of probes across all specs and channels invokes the renderer at most
once per image name, and any two probes of the same name — whatever their
expected versions — observe the same outcome, failures included. -/
theorem render_cache_idempotent (render : Render) (ps : List (String × ImageVersion))
    (run : RunState) (h : cacheConsistent run) :
    cacheConsistent (processLoads render ps run).2 ∧
    (∀ n, (processLoads render ps run).2.renderCalls.count n ≤ 1) ∧
    (processLoads render ps run).1.length = ps.length ∧
    (∀ (i j : Nat) (n : String) (v w : ImageVersion),
      ps[i]? = some (n, v) → ps[j]? = some (n, w) →
      (processLoads render ps run).1[i]? = (processLoads render ps run).1[j]?) := by
  obtain ⟨hlen, hcons, hidx⟩ := processLoads_facts render ps run
  have hc := hcons h
  refine ⟨hc, hc.1, hlen, ?_⟩
  intro i j n v w hi hj
  obtain ⟨o1, ho1, hl1⟩ := hidx i n v hi
  obtain ⟨o2, ho2, hl2⟩ := hidx j n w hj
  rw [ho1, ho2]
  rw [hl1] at hl2
  injection hl2 with h'
  rw [h']

/-- The empty state is consistent. -/
theorem emptyRun_consistent : cacheConsistent emptyRun := by
  constructor
  · intro n
    simp [emptyRun]
  · intro n
    simp [emptyRun, cacheLookup]

/-- C7 witness: the same image probed twice with different expected
versions. -/
theorem render_cache_idempotent_witness :
    cacheConsistent emptyRun ∧
    (processLoads c7render [("img", ⟨"", 1, 0, 0⟩), ("img", ⟨"v", 9, 9, 9⟩)]
        emptyRun).2.renderCalls.count "img" ≤ 1 ∧
    (processLoads c7render [("img", ⟨"", 1, 0, 0⟩), ("img", ⟨"v", 9, 9, 9⟩)]
        emptyRun).1[0]? =
      (processLoads c7render [("img", ⟨"", 1, 0, 0⟩), ("img", ⟨"v", 9, 9, 9⟩)]
        emptyRun).1[1]? :=
  ⟨emptyRun_consistent,
   (render_cache_idempotent c7render [("img", ⟨"", 1, 0, 0⟩), ("img", ⟨"v", 9, 9, 9⟩)]
      emptyRun emptyRun_consistent).2.1 "img",
   (render_cache_idempotent c7render [("img", ⟨"", 1, 0, 0⟩), ("img", ⟨"v", 9, 9, 9⟩)]
      emptyRun emptyRun_consistent).2.2.2 0 1 "img" ⟨"", 1, 0, 0⟩ ⟨"v", 9, 9, 9⟩
      (by decide) (by decide)⟩

/-- C8: an enumeration whose loop terminates with zero successes yields no
bundle and makes `enumerate` raise `NoVersionFound`, which names the pattern
and the parsed starting version; `_load_entries` does not absorb the error —
a channel whose directive list starts with such a spec fails as a whole. -/
theorem no_version_found_fatal (render : Render) (fuel : Nat) (vi : VersionsInfo)
    (run : RunState) (first : ImageVersion) (last : Option ImageVersion)
    (tr : List Step) (ys : List BundleVersion) (fin : EnumState)
    (hf : parseImageVersion vi.fromVer = some first)
    (hl : parsedLast vi = some last)
    (h : enumLoop render vi.pat last vi.skip fuel
        ⟨first, vi.failures.getD 1, 0, run⟩ = some (tr, ys, fin))
    (hz : fin.successes = 0) :
    enumerate render fuel vi run = some (.error (.noVersionFound vi.pat first)) ∧
    ys = [] ∧
    (∀ (pro : String) (epi : Option String) (rest : List VersionsInfo),
      load_entries render fuel ⟨some (pro, some (vi :: rest), epi)⟩ run =
        some (.error (.enumError (.noVersionFound vi.pat first)))) := by
  have henum : enumerate render fuel vi run =
      some (.error (.noVersionFound vi.pat first)) := by
    simp [enumerate, hf, hl, enumerateFrom, h, hz]
  refine ⟨henum, ?_, ?_⟩
  · obtain ⟨_, _, hsucc, hlen, _, _⟩ := enumLoop_spec h
    have hsucc' : fin.successes = 0 + countSucc tr := hsucc
    have : ys.length = 0 := by omega
    exact List.length_eq_zero.mp this
  · intro pro epi rest
    simp [load_entries, image_versions, loadEntriesLoop, henum]

/-- C8 witness: a budget-0 spec against an always-failing renderer. -/
theorem no_version_found_fatal_witness :
    parseImageVersion vi8.fromVer = some ⟨"", 1, 0, 0⟩ ∧
    parsedLast vi8 = some none ∧
    enumLoop failRender vi8.pat none vi8.skip 3
      ⟨⟨"", 1, 0, 0⟩, vi8.failures.getD 1, 0, emptyRun⟩ = some (w8tr, [], w8fin) ∧
    w8fin.successes = 0 ∧
    enumerate failRender 3 vi8 emptyRun =
      some (.error (.noVersionFound "b@@VERSION@@" ⟨"", 1, 0, 0⟩)) :=
  ⟨by decide, by decide, by decide, by decide,
   (no_version_found_fatal failRender 3 vi8 emptyRun ⟨"", 1, 0, 0⟩ none w8tr [] w8fin
      (by decide) (by decide) (by decide) (by decide)).1⟩

/-- C9 counterexample: the reconstructed channel document of a concrete run
is not `prologue ++ entriesBlock ++ epilogue`: the f-string prepends a blank
line before the prologue and inserts newlines after the prologue and around
the epilogue, so the prologue is not a prefix of the output and the epilogue
is not a suffix of it. -/
theorem round_trip_counterexample :
    c9out = "\nschema: olm.channel\n\nentries:\n- name: op.v1.0.0\n\nname: stable\n\n" ∧
    (yaml_prologue_string c9parsed).data.isPrefixOf c9out.data = false ∧
    (yaml_epilogue_string c9parsed).data.isSuffixOf c9out.data = false ∧
    c9out ≠ yaml_prologue_string c9parsed ++ "entries:\n" ++
      dumpEntries [⟨"op.v1.0.0", none⟩] ++ yaml_epilogue_string c9parsed := by
  refine ⟨by decide, by decide, by decide, by decide⟩

/-- C9 (amended): a channel document reconstructed by `_load_entries` is
exactly a newline, the prologue verbatim, a newline, the `entries:` block, a
newline, the epilogue verbatim, and a final newline — prologue and epilogue
appear byte-identically but with these separator newlines added around the
substituted block. -/
theorem round_trip_amended (render : Render) (fuel : Nat) (p : ParsedChannel)
    (run run' : RunState) (out : String)
    (h : load_entries render fuel p run = some (.ok (out, run'))) :
    ∃ es : List CatalogEntry,
      out = "\n" ++ yaml_prologue_string p ++ "\n" ++ "entries:\n" ++
        dumpEntries es ++ "\n" ++ yaml_epilogue_string p ++ "\n" := by
  unfold load_entries at h
  split at h
  · simp at h
  · split at h
    · exact Option.noConfusion h
    · simp at h
    · next accRev run2 heq =>
        simp only [Option.some.injEq, Except.ok.injEq, Prod.mk.injEq] at h
        exact ⟨accRev.reverse, h.1.symm⟩

/-- C9 witness: the concrete round-trip run. -/
theorem round_trip_amended_witness :
    load_entries c9render 5 c9parsed emptyRun =
      some (.ok ("\nschema: olm.channel\n\nentries:\n- name: op.v1.0.0\n\nname: stable\n\n",
        c9run)) ∧
    ∃ es : List CatalogEntry,
      "\nschema: olm.channel\n\nentries:\n- name: op.v1.0.0\n\nname: stable\n\n" =
        "\n" ++ yaml_prologue_string c9parsed ++ "\n" ++ "entries:\n" ++
          dumpEntries es ++ "\n" ++ yaml_epilogue_string c9parsed ++ "\n" :=
  ⟨by rfl,
   round_trip_amended c9render 5 c9parsed emptyRun c9run
     "\nschema: olm.channel\n\nentries:\n- name: op.v1.0.0\n\nname: stable\n\n"
     (by rfl)⟩

/-- C10: the render cache is keyed by the image name alone: probing the same
name a second time with any (in particular a different) expected version
returns the first probe's outcome with the process state — cache, render
ledger and warnings — completely unchanged, so the declared package version
is never re-checked against the second cursor. -/
theorem cache_keyed_by_name_only (render : Render) (run : RunState) (n : String)
    (v1 v2 : ImageVersion) :
    load render (load render run n v1).2 n v2 =
      ((load render run n v1).1, (load render run n v1).2) := by
  rcases hl : cacheLookup run.cache n with _ | o
  · rw [load_miss render v1 hl]
    simp [load, cacheLookup]
  · rw [load_hit render v1 hl, load_hit render v2 hl]

end MkCat
